import Mathlib

/-!
Verification of the goignore gitignore-matching library.

Strings are modelled as `List Char` (the Go code indexes bytes of ASCII
pattern/path strings).  Go runtime panics (index out of range on a string,
a slice, or the fixed 1024-entry component buffer) are modelled by `Option`:
`none` is a panic, `some v` a normal return of `v`.
-/

namespace Goignore

/-- Components of `mySplit` from src/goignore.go: scan the string once,
emitting each maximal non-empty run of non-separator characters.  `cur`
holds the characters of the component being built, in reverse. -/
def mySplitAux (sep : Char) (cur : List Char) : List Char → List (List Char)
  | [] => if cur.isEmpty then [] else [cur.reverse]
  | c :: cs =>
    if c = sep then
      if cur.isEmpty then mySplitAux sep [] cs
      else cur.reverse :: mySplitAux sep [] cs
    else mySplitAux sep (c :: cur) cs

/-- The function `mySplit` from src/goignore.go.  Go writes the components into a
fixed buffer of length 1024 ("should be enough for all cases") and panics with
an index-out-of-range error as soon as a 1025th non-empty component appears;
`none` models that panic. -/
def mySplit (s : List Char) (sep : Char) : Option (List (List Char)) :=
  let comps := mySplitAux sep [] s
  if comps.length ≤ 1024 then some comps else none

/-- The structure `Rule` from src/goignore.go. -/
structure Rule where
  components : List (List Char)
  negate : Bool
  onlyDirectory : Bool
  relative : Bool
deriving DecidableEq, Repr

/-- The function `stringMatch` from src/goignore.go (the variant without a
bracket-expression case: `[` is handled by the default branch, as a literal).
The Go loop walks `str` with index `i` and `pattern` with index `j`; here the
two lists are the unread suffixes `str[i:]` and `pattern[j:]`.
When `str` is exhausted Go returns `false` only when `j < len(pattern)-1`,
i.e. when at least two pattern characters remain, so the base case accepts
whenever at most one pattern character is left.
In the `*` case Go tries the suffixes `str[k:]` for `k = len(str) .. i`
(shortest first) and returns whether any of them matches the rest of the
pattern; as only a boolean is produced the order does not matter and the
disjunction is expressed with `List.any` over `tails`. -/
def stringMatch : List Char → List Char → Bool
  | [], pat => decide (pat.length ≤ 1)
  | _ :: _, [] => false
  | c :: cs, p :: ps =>
    if p = '?' then stringMatch cs ps
    else if p = '*' then (c :: cs).tails.any fun t => stringMatch t ps
    else if c = p then stringMatch cs ps
    else false

/-- The candidate suffixes tried by the Go loops `for j := len(x)-1; j >= 0; j--`
over `x[j:]`: all non-empty suffixes of `x`, shortest first. -/
def suffixesOf (x : List (List Char)) : List (List (List Char)) :=
  (List.range x.length).reverse.map fun j => x.drop j

/-- The function `matchComponents` from src/goignore.go.  (Go also threads an
`onlyDirectory` argument through the recursion without ever reading it; it is
omitted here.)  The returned pair is Go's `(matches, final)`: `final` records
whether the whole path was consumed.  A `**` component tries the non-empty
suffixes of the remaining path, shortest first, and the first one that matches
the rest of the pattern decides the result, its `final` flag passed through. -/
def matchComponents (path comps : List (List Char)) : Bool × Bool :=
  match comps, path with
  | [], path => (true, path.isEmpty)
  | _ :: _, [] => (false, false)
  | c :: cs, p :: ps =>
    if c = ['*', '*'] then
      (((suffixesOf (p :: ps)).map fun sfx => matchComponents sfx cs).find?
        fun mf => mf.1).getD (false, false)
    else if stringMatch p c then matchComponents ps cs
    else (false, false)

/-- The body of the non-relative loop of `Rule.Match` from src/goignore.go:
walk the given candidate suffixes in order; the first one on which
`matchComponents` reports a match decides the rule via the directory-only
policy `!od || od && (!final || final && hasSuffix)`; if none matches the
rule does not match.  The early `return` in Go is the early exit here. -/
def trySuffixes (rcomps : List (List Char)) (od hs : Bool) :
    List (List (List Char)) → Bool
  | [] => false
  | sfx :: rest =>
    let mf := matchComponents sfx rcomps
    if mf.1 then !od || (od && (!mf.2 || (mf.2 && hs)))
    else trySuffixes rcomps od hs rest

/-- The test `strings.HasSuffix(path, "/")` from `Rule.Match`. -/
def hasSlashSuffix (s : List Char) : Bool :=
  decide (s.getLast? = some '/')

/-- The body of `Rule.Match` from src/goignore.go after the path has been
split into components (`comps`) and the trailing-separator flag (`hs`)
has been computed. -/
def Rule.MatchOn (r : Rule) (comps : List (List Char)) (hs : Bool) : Bool :=
  if !r.relative then
    trySuffixes r.components r.onlyDirectory hs (suffixesOf comps)
  else
    let mf := matchComponents comps r.components
    mf.1 && (!r.onlyDirectory || (r.onlyDirectory && (!mf.2 || (mf.2 && hs))))

/-- The method `Rule.Match` from src/goignore.go: compute the trailing-slash
flag, split the path (which may panic for paths of more than 1024
components), then run the matching body. -/
def Rule.Match (r : Rule) (path : List Char) : Option Bool :=
  let hs := hasSlashSuffix path
  (mySplit path '/').map fun comps => Rule.MatchOn r comps hs

/-- The structure `Gitignore` from src/goignore.go. -/
structure Gitignore where
  rules : List Rule
deriving DecidableEq, Repr

/-- The call `filepath.ToSlash` at the top of `Gitignore.Match`: it replaces
the OS path separator with `/` and is the identity on a system whose
separator already is `/`, which is how it is modelled here. -/
def toSlash (path : List Char) : List Char := path

/-- The method `Gitignore.Match` from src/goignore.go: fold over the rules in
order starting from `matched = false`; a matching rule overwrites the
accumulator with the negation of its `negate` flag; a panic in `Rule.Match`
(path of more than 1024 components) aborts the whole call. -/
def Gitignore.Match (g : Gitignore) (path0 : List Char) : Option Bool :=
  let path := toSlash path0
  g.rules.foldlM
    (fun matched rule => (rule.Match path).map fun b => if b then !rule.negate else matched)
    false

/-- The trim set `" \t\r\n"` used by `CompileIgnoreLines`. -/
def isTrimChar (c : Char) : Bool :=
  c = ' ' || c = '\t' || c = '\r' || c = '\n'

/-- The call `strings.Trim(pattern, " \t\r\n")` from `CompileIgnoreLines`:
remove the trim characters from both ends. -/
def trimLine (s : List Char) : List Char :=
  ((s.dropWhile isTrimChar).reverse.dropWhile isTrimChar).reverse

/-- The marker-stripping prefix of `createRule` from src/goignore.go: drop a
leading `!` (recording negation), a leading `/` (recording anchoring) and a
leading `\`, in this order.  Each step is followed in Go by an unguarded
index into the remaining string, so a pattern that becomes empty after a
strip makes Go panic; `none` models that panic.  Returns
`(negate, relative-flag, remainder)`. -/
def stripMarkers (pattern : List Char) : Option (Bool × Bool × List Char) :=
  match pattern with
  | [] => none
  | c0 :: rest0 =>
    let p1 := if c0 = '!' then rest0 else c0 :: rest0
    match p1 with
    | [] => none
    | c1 :: rest1 =>
      let p2 := if c1 = '/' then rest1 else c1 :: rest1
      match p2 with
      | [] => none
      | c2 :: rest2 =>
        some (decide (c0 = '!'), decide (c1 = '/'), if c2 = '\\' then rest2 else c2 :: rest2)

/-- The function `createRule` from src/goignore.go: strip the markers, read
the trailing `/` as the directory-only flag (without stripping it; the split
discards it), split into components, and set `Relative` when the line was
anchored or the pattern has more than one component. -/
def createRule (pattern : List Char) : Option Rule :=
  match stripMarkers pattern with
  | none => none
  | some (negate, relative, p3) =>
    match p3 with
    | [] => none
    | _ :: _ =>
      let onlyDirectory := decide (p3.getLast? = some '/')
      (mySplit p3 '/').map fun components =>
        { components := components
          negate := negate
          onlyDirectory := onlyDirectory
          relative := relative || decide (components.length > 1) }

/-- The function `CompileIgnoreLines` from src/goignore.go: trim each line,
skip blank lines and `#` comments, compile the rest in order.  A panic in
`createRule` aborts the whole call. -/
def CompileIgnoreLines (patterns : List (List Char)) : Option Gitignore :=
  (patterns.foldlM
    (fun rules pat =>
      let p := trimLine pat
      match p with
      | [] => some rules
      | c :: _ =>
        if c = '#' then some rules
        else (createRule p).map fun r => rules ++ [r])
    []).map Gitignore.mk

/-- The call `strings.Split(s, "\n")` from `CompileIgnoreFile`: split around
every separator, keeping empty pieces; the empty string yields `[[]]`. -/
def splitAll (sep : Char) : List Char → List (List Char)
  | [] => [[]]
  | c :: cs =>
    if c = sep then [] :: splitAll sep cs
    else
      match splitAll sep cs with
      | [] => [[c]]
      | t :: ts => (c :: t) :: ts

/-- The function `CompileIgnoreFile` from src/goignore.go.  `os.ReadFile` is
outside the repository; its outcome is passed in explicitly.  On failure Go's
`os.ReadFile` returns nil bytes — the empty string — together with the error,
and this `CompileIgnoreFile` still compiles that empty content and returns
the resulting `Gitignore` alongside the error. -/
def CompileIgnoreFile (readResult : Except (List Char) (List Char)) :
    Option Gitignore × Option (List Char) :=
  let contents := match readResult with | .ok bs => bs | .error _ => []
  let err : Option (List Char) := match readResult with | .ok _ => none | .error e => some e
  (CompileIgnoreLines (splitAll '\n' contents), err)

example : stringMatch ("foo".data) ("f*o".data) = true := by decide
example : stringMatch ("fo".data) ("foo".data) = true := by decide
example : mySplit ("a//b/".data) '/' = some [['a'], ['b']] := by decide

/-- The scanning loop of the bracket-expression case of `stringMatch` from
src/unnamed/part_002 (`for ; j < len(pattern) && pattern[j] != ']'; j++`),
started after the optional `!`/`]` prefix has been handled.  `c` is the text
character `str[i]`, the list argument is the unread pattern `pattern[j:]`,
`m` is Go's `matched`.  The loop body reads `pattern[j+1]` unguarded, and
`pattern[j+2]` when `pattern[j+1] == '-'`; reading past the end of the
pattern is a Go panic, modelled by `none`.  A normal exit returns
`some none` when the scan ran off the end of the pattern (unterminated
bracket) and `some (some (m, rest))` when it stopped at `]`, with `rest` the
pattern after the `]`. -/
def bracketScan (c : Char) : List Char → Bool → Option (Option (Bool × List Char))
  | [], _ => some none
  | x :: t, m =>
    if x = ']' then some (some (m, t))
    else if m then bracketScan c t m
    else
      match t with
      | [] => none
      | y :: t2 =>
        if y = '-' then
          match t2 with
          | [] => none
          | z :: _ =>
            bracketScan c t
              ((decide (z ≠ ']') && decide (x ≤ c) && decide (c ≤ z)) || decide (c = x))
        else bracketScan c t (decide (c = x))

/-- A terminated bracket scan leaves a strictly shorter pattern remainder;
this bounds the recursion of the bracket case of the part_002 `stringMatch`. -/
theorem bracketScan_rest_length {c : Char} :
    ∀ {t : List Char} {m m' : Bool} {rest : List Char},
      bracketScan c t m = some (some (m', rest)) → rest.length < t.length := by
  intro t
  induction t with
  | nil => intro m m' rest h; rw [bracketScan.eq_def] at h; simp at h
  | cons x t ih =>
    intro m m' rest h
    rw [bracketScan.eq_def] at h
    simp only at h
    split_ifs at h with hx hm
    · simp only [Option.some.injEq, Prod.mk.injEq] at h
      obtain ⟨-, h2⟩ := h
      subst h2
      simp only [List.length_cons]
      omega
    · have := ih h
      simp only [List.length_cons]
      omega
    · cases t with
      | nil => simp at h
      | cons y t2 =>
        simp only at h
        split_ifs at h with hy
        · cases t2 with
          | nil => simp at h
          | cons z t3 =>
            simp only at h
            have := ih h
            simp only [List.length_cons] at *
            omega
        · have := ih h
          simp only [List.length_cons] at *
          omega

/-- First-match search used by the `*` case of the part_002 `stringMatch`:
walk the candidate results in order; a panic (`none`) aborts, a success
(`some true`) stops the search (Go's `break`), a failure moves on; if no
candidate succeeds the result is `some false`. -/
def firstFound : List (Option Bool) → Option Bool
  | [] => some false
  | none :: _ => none
  | some true :: _ => some true
  | some false :: rest => firstFound rest

/-- The function `stringMatch` from src/unnamed/part_002 (the variant with
bracket expressions and backslash escaping).  As in `stringMatch`, the two
lists are the unread suffixes of `str` and `pattern`; `none` models a Go
panic (an out-of-range string index).  The `*` case tries the suffixes of
the remaining text shortest first and stops at the first success, so a panic
in a later candidate is only reached when all earlier candidates fail.  An
unterminated bracket reverts to matching `[` literally, resuming right after
it; a terminated bracket whose set result equals its negation flag fails. -/
def stringMatchB : List Char → List Char → Option Bool
  | [], pat => some (decide (pat.length ≤ 1))
  | _ :: _, [] => some false
  | c :: cs, p :: ps =>
    if p = '?' then stringMatchB cs ps
    else if p = '*' then
      firstFound (((c :: cs).tails.reverse).map fun t => stringMatchB t ps)
    else if p = '[' then
      match ps with
      | [] => none
      | '!' :: t =>
        match hscan : bracketScan c t false with
        | none => none
        | some none => if c = '[' then stringMatchB cs ('!' :: t) else some false
        | some (some (m, rest)) => if m = true then some false else stringMatchB cs rest
      | ']' :: t =>
        match hscan : bracketScan c t (decide (c = ']')) with
        | none => none
        | some none => if c = '[' then stringMatchB cs (']' :: t) else some false
        | some (some (m, rest)) => if m = false then some false else stringMatchB cs rest
      | hch :: t =>
        match hscan : bracketScan c (hch :: t) false with
        | none => none
        | some none => if c = '[' then stringMatchB cs (hch :: t) else some false
        | some (some (m, rest)) => if m = false then some false else stringMatchB cs rest
    else if p = '\\' then
      match ps with
      | [] => none
      | q :: qs => if c = q then stringMatchB cs qs else some false
    else if c = p then stringMatchB cs ps else some false
termination_by _ pat => pat.length
decreasing_by
  all_goals simp_wf
  all_goals try simp only [List.length_cons]
  all_goals try omega
  all_goals
    (have h1 := bracketScan_rest_length hscan
     try simp only [List.length_cons] at h1
     omega)

/-! Helper lemmas about the tokenizer and the suffix enumeration. -/

/-- Appending a trailing separator adds no component: the scanning loop of
`mySplit` emits only non-empty runs. -/
theorem mySplitAux_append_sep (sep : Char) :
    ∀ (s cur : List Char), mySplitAux sep cur (s ++ [sep]) = mySplitAux sep cur s := by
  intro s
  induction s with
  | nil => intro cur; simp [mySplitAux]
  | cons c cs ih =>
    intro cur
    by_cases hc : c = sep
    · simp [mySplitAux, hc, ih]
    · simp [mySplitAux, hc, ih]

/-- Appending a trailing separator leaves `mySplit` unchanged (components and
the panic condition alike). -/
theorem mySplit_append_sep (s : List Char) :
    mySplit (s ++ ['/']) '/' = mySplit s '/' := by
  unfold mySplit
  rw [mySplitAux_append_sep]

/-- A scan that has already collected part of a component emits at least that
component. -/
theorem mySplitAux_ne_nil (sep : Char) :
    ∀ (s cur : List Char), cur ≠ [] → mySplitAux sep cur s ≠ [] := by
  intro s
  induction s with
  | nil =>
    intro cur h
    have : cur.isEmpty = false := by cases cur with | nil => simp at h | cons a t => rfl
    simp [mySplitAux, this]
  | cons c cs ih =>
    intro cur h
    have he : cur.isEmpty = false := by cases cur with | nil => simp at h | cons a t => rfl
    by_cases hc : c = sep
    · simp [mySplitAux, hc, he]
    · simp only [mySplitAux, hc, if_neg]
      exact ih (c :: cur) (by simp)

/-- The split of a string is empty exactly when the string is all separators. -/
theorem mySplitAux_eq_nil_iff (sep : Char) :
    ∀ (s : List Char), mySplitAux sep [] s = [] ↔ s.all (· = sep) := by
  intro s
  induction s with
  | nil => simp [mySplitAux]
  | cons c cs ih =>
    by_cases hc : c = sep
    · simp [mySplitAux, hc, ih]
    · have hne := mySplitAux_ne_nil sep cs [c] (by simp)
      simp [mySplitAux, hc, hne]

/-- The suffix enumeration of the Go index loops, `x[j:]` for
`j = len(x)-1 .. 0`, is exactly the non-empty terminal segments of `x`
(`tails` without its final empty element), shortest first. -/
theorem suffixesOf_eq_tails (x : List (List Char)) :
    suffixesOf x = x.tails.dropLast.reverse := by
  suffices h : (List.range x.length).map (x.drop ·) = x.tails.dropLast by
    unfold suffixesOf
    rw [List.map_reverse, h]
  induction x with
  | nil => simp
  | cons a l ih =>
    rw [List.length_cons, List.range_succ_eq_map, List.map_cons, List.drop_zero,
      List.map_map]
    have h1 : ((a :: l).drop ·) ∘ Nat.succ = (l.drop ·) := by
      funext i
      simp [List.drop_succ_cons]
    rw [h1, ih, List.tails_cons]
    cases l with
    | nil => simp
    | cons b m =>
      rw [List.tails_cons]
      rfl

/-! Helper lemmas about the rule matcher and the verdict fold. -/

/-- For a rule that is not directory-only the trailing-separator flag is never
consulted by the suffix search. -/
theorem trySuffixes_not_dironly (rc : List (List Char)) (hs hs' : Bool) :
    ∀ L, trySuffixes rc false hs L = trySuffixes rc false hs' L := by
  intro L
  induction L with
  | nil => rfl
  | cons sfx rest ih => simp [trySuffixes, ih]

/-- For a rule that is not directory-only the match verdict does not depend on
whether the queried path carries a trailing separator. -/
theorem MatchOn_not_dironly (r : Rule) (hod : r.onlyDirectory = false)
    (comps : List (List Char)) (hs hs' : Bool) :
    Rule.MatchOn r comps hs = Rule.MatchOn r comps hs' := by
  unfold Rule.MatchOn
  rw [hod]
  by_cases hrel : r.relative
  · simp [hrel]
  · simp only [hrel, Bool.not_false, if_true]
    exact trySuffixes_not_dironly _ _ _ _

/-- For a rule that is not directory-only, appending a trailing separator to
the queried path does not change `Rule.Match` (panic included). -/
theorem RuleMatch_append_sep (r : Rule) (hod : r.onlyDirectory = false)
    (p : List Char) :
    Rule.Match r (p ++ ['/']) = Rule.Match r p := by
  unfold Rule.Match
  rw [mySplit_append_sep]
  cases hsp : mySplit p '/' with
  | none => rfl
  | some comps =>
    simp only [Option.map_some']
    rw [MatchOn_not_dironly r hod comps (hasSlashSuffix (p ++ ['/'])) (hasSlashSuffix p)]

/-- When splitting the queried path succeeds, the monadic rule fold of
`Gitignore.Match` computes the pure left fold of the per-rule verdicts. -/
theorem foldlM_rules_eq_foldl (p : List Char) (comps : List (List Char))
    (hsplit : mySplit p '/' = some comps) :
    ∀ (rules : List Rule) (m : Bool),
      List.foldlM
        (fun matched rule => (Rule.Match rule p).map fun b => if b then !rule.negate else matched)
        m rules
      = some (List.foldl
          (fun matched rule => if Rule.MatchOn rule comps (hasSlashSuffix p) then !rule.negate else matched)
          m rules) := by
  intro rules
  induction rules with
  | nil => intro m; rfl
  | cons r rs ih =>
    intro m
    have hr : Rule.Match r p = some (Rule.MatchOn r comps (hasSlashSuffix p)) := by
      unfold Rule.Match
      rw [hsplit]
      rfl
    rw [List.foldlM_cons, hr, List.foldl_cons]
    simp only [Option.map_some', Option.some_bind]
    exact ih _

/-- When no rule is directory-only, the monadic rule fold gives the same
result on a path with and without an appended trailing separator. -/
theorem foldlM_rules_append_sep (p : List Char) :
    ∀ (rules : List Rule), (∀ r ∈ rules, r.onlyDirectory = false) → ∀ (m : Bool),
      List.foldlM
        (fun matched rule => (Rule.Match rule (p ++ ['/'])).map fun b => if b then !rule.negate else matched)
        m rules
      = List.foldlM
          (fun matched rule => (Rule.Match rule p).map fun b => if b then !rule.negate else matched)
          m rules := by
  intro rules
  induction rules with
  | nil => intro _ m; rfl
  | cons r rs ih =>
    intro h m
    have hr := RuleMatch_append_sep r (h r (List.mem_cons_self r rs)) p
    rw [List.foldlM_cons, List.foldlM_cons, hr]
    cases Rule.Match r p with
    | none => rfl
    | some b =>
      simp only [Option.map_some', Option.some_bind]
      exact ih (fun r' hr' => h r' (List.mem_cons_of_mem _ hr')) _

/-- Modelled from the spec for claim C4 only: the same first-match suffix
search as the non-anchored branch of `Rule.Match`, but walking the suffixes
"from the full sequence down to the single last component, longest first"
(`tails` without its final empty element, in its natural longest-first
order). -/
def ruleMatchLongestFirst (r : Rule) (comps : List (List Char)) (hs : Bool) : Bool :=
  trySuffixes r.components r.onlyDirectory hs comps.tails.dropLast

/-! Claim theorems. -/

/-- C1: `Gitignore.Match` computes its verdict as a fold over the compiled
rules in input order, starting from `ignored = false`: every rule whose
matcher accepts the path sets `ignored` to the negation of its `negate`
flag, every rule that does not accept leaves the running value unchanged,
and the value after the last rule is the result. -/
theorem C1_match_is_foldl (g : Gitignore) (path : List Char)
    (comps : List (List Char))
    (hsplit : mySplit (toSlash path) '/' = some comps) :
    g.Match path = some (g.rules.foldl
      (fun ignored rule =>
        if Rule.MatchOn rule comps (hasSlashSuffix (toSlash path)) then !rule.negate
        else ignored)
      false) :=
  foldlM_rules_eq_foldl (toSlash path) comps hsplit g.rules false

/-- Witness for C1 at the rule list `["foo"]` and the path `a/foo`. -/
theorem C1_match_is_foldl_witness :
    mySplit (toSlash ("a/foo".data)) '/' = some [("a".data), ("foo".data)] ∧
    Gitignore.Match
        { rules := [{ components := [("foo".data)], negate := false,
                      onlyDirectory := false, relative := false }] }
        ("a/foo".data)
      = some (List.foldl
          (fun ignored rule =>
            if Rule.MatchOn rule [("a".data), ("foo".data)]
                (hasSlashSuffix (toSlash ("a/foo".data))) then !rule.negate
            else ignored)
          false
          [{ components := [("foo".data)], negate := false,
             onlyDirectory := false, relative := false }]) :=
  ⟨by decide, C1_match_is_foldl _ _ _ (by decide)⟩

/-- C2 (code bug): compiling the pattern line `"!"` does not produce a
defined outcome — Go strips the `!` and then evaluates `pattern[0]` on the
now-empty string, an index-out-of-range panic (modelled by `none`), contrary
to the claim that no pattern line causes a crash. -/
theorem C2_compile_panics_on_bang :
    CompileIgnoreLines [("!".data)] = none := by decide

/-- C3 counterexample: for the rule list `["/*", "!/foo"]` the claim asserts
`Match("foo/bar") = true`; the code returns `false`, because the negated rule
`!/foo` also matches `foo/bar` (`matchComponents` accepts as soon as the
pattern components are exhausted, even with path components left over) and
clears the verdict. -/
theorem C3_counterexample :
    (CompileIgnoreLines [("/*".data), ("!/foo".data)]).bind
      (fun g => g.Match ("foo/bar".data)) = some false := by decide

/-- C3 amended: for `["/*", "!/foo"]`, `Match("foo")` is `false` and
`Match("foo/bar")` is `false` as well — the negated rule `!/foo` re-includes
`foo` and every descendant of `foo`, since a rule whose components match a
prefix of the path's components matches the path. -/
theorem C3_amended :
    (CompileIgnoreLines [("/*".data), ("!/foo".data)]).bind
        (fun g => g.Match ("foo".data)) = some false ∧
    (CompileIgnoreLines [("/*".data), ("!/foo".data)]).bind
        (fun g => g.Match ("foo/bar".data)) = some false := by
  exact ⟨by decide, by decide⟩

/-- C4 counterexample: the claim asserts the non-anchored suffix search is
longest-first.  For the rule compiled from `"foo/"` and the path components
`["foo", "foo"]` (no trailing separator), the code answers `false` while the
longest-first search of the claim answers `true`, so the claim's description
of `Rule.Match` is wrong on this input. -/
theorem C4_counterexample :
    createRule ("foo/".data) =
      some { components := [("foo".data)], negate := false,
             onlyDirectory := true, relative := false } ∧
    Rule.MatchOn
        { components := [("foo".data)], negate := false,
          onlyDirectory := true, relative := false }
        [("foo".data), ("foo".data)] false = false ∧
    ruleMatchLongestFirst
        { components := [("foo".data)], negate := false,
          onlyDirectory := true, relative := false }
        [("foo".data), ("foo".data)] false = true := by
  refine ⟨by decide, by decide, by decide⟩

/-- C4 amended: when `rule.anchored` is false, rule matching tries the
suffixes of the path's component sequence from the single last component up
to the full sequence, shortest first; the first suffix on which the
component-sequence matcher succeeds has the directory-only policy applied to
its result and that decides the rule's verdict; if no suffix matches, the
rule does not match. -/
theorem C4_amended (r : Rule) (comps : List (List Char)) (hs : Bool)
    (h : r.relative = false) :
    Rule.MatchOn r comps hs =
      trySuffixes r.components r.onlyDirectory hs comps.tails.dropLast.reverse := by
  unfold Rule.MatchOn
  rw [h]
  simp only [Bool.not_false, if_true]
  rw [suffixesOf_eq_tails]

/-- Witness for C4 at the rule compiled from `foo/` and the path components
`["foo", "bar"]`. -/
theorem C4_amended_witness :
    ({ components := [("foo".data)], negate := false,
       onlyDirectory := true, relative := false } : Rule).relative = false ∧
    Rule.MatchOn
        { components := [("foo".data)], negate := false,
          onlyDirectory := true, relative := false }
        [("foo".data), ("bar".data)] false
      = trySuffixes [("foo".data)] true false
          ([("foo".data), ("bar".data)].tails.dropLast.reverse) :=
  ⟨rfl, C4_amended _ _ _ rfl⟩

/-- C5 (code bug): with the single non-anchored wildcard-free pattern `foo`,
the path `fo` (a different single component) matches, contrary to the claim
that only `p` itself matches.  The culprit is the end-of-text bookkeeping of
`stringMatch`: Go only rejects when `j < len(pattern)-1`, forgiving one
unread concrete pattern character, so `stringMatch("fo", "foo")` is true. -/
theorem C5_trailing_pattern_char_forgiven :
    stringMatch ("fo".data) ("foo".data) = true ∧
    (CompileIgnoreLines [("foo".data)]).bind
      (fun g => g.Match ("fo".data)) = some true := by
  exact ⟨by decide, by decide⟩

/-- C6 counterexample: the claim asserts that for `["foo/"]` every non-empty
suffix `s` gives `Match("foo/" + s) = true`; for `s = "foo"` the code returns
`false`, because the shortest-first suffix search finds the final component
`foo`, which consumes that whole suffix, and the directory-only policy then
rejects for want of a trailing separator. -/
theorem C6_counterexample :
    (CompileIgnoreLines [("foo/".data)]).bind
      (fun g => g.Match ("foo/foo".data)) = some false := by decide

/-- C6 amended: for `["foo/"]`, `Match("foo") = false`, `Match("foo/") = true`
and `Match("foo/bar") = true`, but not everything nested under `foo` matches:
`Match("foo/foo") = false`, since the rule's suffix search tries the last
path component first and `foo` completes a whole-suffix match without the
directory marker. -/
theorem C6_amended :
    (CompileIgnoreLines [("foo/".data)]).bind
        (fun g => g.Match ("foo".data)) = some false ∧
    (CompileIgnoreLines [("foo/".data)]).bind
        (fun g => g.Match ("foo/".data)) = some true ∧
    (CompileIgnoreLines [("foo/".data)]).bind
        (fun g => g.Match ("foo/bar".data)) = some true ∧
    (CompileIgnoreLines [("foo/".data)]).bind
        (fun g => g.Match ("foo/foo".data)) = some false := by
  refine ⟨by decide, by decide, by decide, by decide⟩

/-- C7 (code bug): an unterminated bracket expression does not fall back to a
literal `[` as claimed — the scanning loop reads `pattern[j+1]` (and the
prefix switch reads `pattern[j]`) without a bounds check, so
`stringMatch("[a", "[a")` and `stringMatch("x", "[")` panic with an
index-out-of-range error (modelled by `none`) instead of returning a
boolean. -/
theorem C7_unterminated_bracket_panics :
    stringMatchB ("[a".data) ("[a".data) = none ∧
    stringMatchB ("x".data) ("[".data) = none := by
  constructor
  · rw [stringMatchB.eq_def]; rfl
  · rw [stringMatchB.eq_def]; rfl

/-- C8 counterexample: the trimmed, non-blank, non-comment line `"//"` passes
the upstream filter of `CompileIgnoreLines` and compiles to a rule whose
components sequence is empty, contrary to the claimed invariant. -/
theorem C8_counterexample :
    CompileIgnoreLines [("//".data)] =
      some { rules := [{ components := [], negate := false,
                         onlyDirectory := true, relative := true }] } := by decide

/-- C8 amended: a compiled rule's components sequence is empty exactly when
the marker-stripped remainder of its line consists only of separators (as in
`"//"`); for every line whose remainder contains a non-separator character,
the components sequence is non-empty. -/
theorem C8_amended (pattern : List Char) (negate relative : Bool)
    (rem : List Char) (r : Rule)
    (hstrip : stripMarkers pattern = some (negate, relative, rem))
    (hrule : createRule pattern = some r) :
    r.components = [] ↔ rem.all (· = '/') := by
  unfold createRule at hrule
  rw [hstrip] at hrule
  cases rem with
  | nil => simp at hrule
  | cons a t =>
    by_cases hlen : (mySplitAux '/' [] (a :: t)).length ≤ 1024
    · simp only [mySplit, hlen, if_pos, Option.map_some'] at hrule
      obtain rfl := Option.some.inj hrule
      simpa using mySplitAux_eq_nil_iff '/' (a :: t)
    · simp [mySplit, hlen] at hrule

/-- Witness for C8 at the line `"//"`, whose stripped remainder `/` is all
separators and whose compiled components are empty. -/
theorem C8_amended_witness :
    stripMarkers ("//".data) = some (false, true, ("/".data)) ∧
    createRule ("//".data) =
      some { components := [], negate := false,
             onlyDirectory := true, relative := true } ∧
    (({ components := [], negate := false, onlyDirectory := true,
        relative := true } : Rule).components = [] ↔ ("/".data).all (· = '/')) :=
  ⟨by decide, by decide,
    C8_amended ("//".data) false true ("/".data)
      { components := [], negate := false, onlyDirectory := true, relative := true }
      (by decide) (by decide)⟩

/-- C9 counterexample: when the read fails, `CompileIgnoreFile` from
src/goignore.go propagates the error but does not leave the caller without
an ignore set — it also returns the (perfectly usable, empty) `Gitignore`
compiled from the empty content, so the claim's "yields no partially-usable
IgnoreSet" is false. -/
theorem C9_counterexample :
    CompileIgnoreFile (.error ("ENOENT".data)) =
      (some { rules := [] }, some ("ENOENT".data)) ∧
    (CompileIgnoreFile (.error ("ENOENT".data))).1 ≠ none := by
  exact ⟨by decide, by decide⟩

/-- C9 amended: `CompileIgnoreFile` reads the file, splits its bytes on the
newline character and delegates to the line-based compiler; on a read
failure the I/O error is propagated uninterpreted, but alongside it the
function still returns the ignore set compiled from the empty content — an
empty, usable rule list — rather than no ignore set. -/
theorem C9_amended :
    (∀ e : List Char,
      CompileIgnoreFile (.error e) = (some { rules := [] }, some e)) ∧
    (∀ bs : List Char,
      CompileIgnoreFile (.ok bs) = (CompileIgnoreLines (splitAll '\n' bs), none)) :=
  ⟨fun _ => rfl, fun _ => rfl⟩

/-- C10: for an ignore set in which no rule is directory-only, appending the
trailing directory marker to a path that does not already end with the
separator leaves the verdict unchanged. -/
theorem C10_trailing_separator_irrelevant (g : Gitignore) (p : List Char)
    (hod : ∀ r ∈ g.rules, r.onlyDirectory = false)
    (hp : hasSlashSuffix p = false) :
    g.Match (p ++ ['/']) = g.Match p :=
  foldlM_rules_append_sep p g.rules hod false

/-- Witness for C10 at the rule list `["foo"]` and the path `a/foo`. -/
theorem C10_trailing_separator_irrelevant_witness :
    (∀ r ∈ ({ rules := [{ components := [("foo".data)], negate := false,
                          onlyDirectory := false, relative := false }] } :
              Gitignore).rules, r.onlyDirectory = false) ∧
    hasSlashSuffix ("a/foo".data) = false ∧
    Gitignore.Match
        { rules := [{ components := [("foo".data)], negate := false,
                      onlyDirectory := false, relative := false }] }
        (("a/foo".data) ++ ['/'])
      = Gitignore.Match
          { rules := [{ components := [("foo".data)], negate := false,
                        onlyDirectory := false, relative := false }] }
          ("a/foo".data) :=
  ⟨by decide, by decide,
    C10_trailing_separator_irrelevant _ _ (by decide) (by decide)⟩

end Goignore
